import Mathlib

/-!
Shallow embedding of the icp-scanner repository's decoding, pagination and
classification logic, together with theorems settling the specification
claims about it.

Sources embedded here (TypeScript):
- `src/scanner.ts` (second, parallel variant): `normalizeSub`, `eqAccount`,
  `formatAmount`, `memoToHex`, `extractValue` / `extractText` / `extractNat` /
  `extractBlob` / `extractAccount`, `n64ToMillis`, `buildSegments`,
  `handleBlock` (ICP), `handleIcrcBlock` (ICRC-3), and the scan-window
  computation of `scanIcpLedger` / `scanIcrcLedger`;
  the first (sequential) variant's per-segment failure handling.
- `src/api_scanner.ts`: `utils.normalizeSubaccount`,
  `matching.equalSubaccounts`, `matching.matchesIcrcAccount`, and the
  direction logic of `csvMapping.fromIcpTransaction` /
  `csvMapping.fromIcrcTransaction`.
- `src/src/rosetta-flow-retriever.ts`: its `formatAmount` variant.

Modelling conventions:
- JavaScript decimal digit strings are `List Nat` of digits, most significant
  first (`BigInt.toString()` of `v` is `natDigits v`).
- JavaScript `string | null | undefined` owner text is `Option String`;
  falsiness of a string is being `""`.
- `Principal.fromUint8Array(...).toText()` (an external library call that may
  throw) is an arbitrary parameter `decode : List Nat → Option String`;
  `none` models the thrown/caught case.
- `new Date(ms).toISOString()` is an arbitrary parameter `toIso : Nat → String`.
- Machine integers (`bigint`, block indexes, timestamps) are `Nat`; the code
  performs no wrapping arithmetic on them.
-/

/-- Row direction as in `CsvRow["direction"]`:
`"inflow" | "outflow" | "self" | "mint" | "burn"`. -/
inductive Direction where
  | self
  | inflow
  | outflow
  | mint
  | burn
deriving DecidableEq, Repr

/-- An ICRC account as decoded by `scanner.ts`: `{ owner: Principal;
subaccount: number[] | null }`.  The owner is represented by its text form
(`owner.toText()`), which is how `eqAccount` compares owners. -/
structure Account where
  owner : String
  subaccount : Option (List Nat)
deriving DecidableEq, Repr

/-- A formatted fixed-point decimal amount: whole-part digits and fractional
digits.  An empty fractional part models a rendered string with no decimal
point (`formatAmount` omits the point when the fraction trims to empty). -/
abbrev DecimalDigits := List Nat × List Nat

/-- `CsvRow` of `scanner.ts` (8 columns).  `amount` carries the
`formatAmount` result; `block_index` carries the numeric index whose
`toString()` the code writes. -/
structure CsvRow where
  date_iso : String
  token : String
  direction : Direction
  amount : DecimalDigits
  from_principal : String
  to_principal : String
  block_index : Nat
  memo : String
deriving DecidableEq, Repr

/-- One element of the list built by `buildSegments`:
`{ start: bigint; length: bigint; idx: number }`. -/
structure Segment where
  start : Nat
  length : Nat
  idx : Nat
deriving DecidableEq, Repr

/-- The generic tagged value of the ICRC-3 block log as decoded from Candid:
`Blob`, `Text`, `Nat`, `Int`, `Array`, `Map` (an association list). -/
inductive Value where
  | blob (bytes : List Nat)
  | text (s : String)
  | natV (n : Nat)
  | intV (i : Int)
  | arr (elems : List Value)
  | map (entries : List (String × Value))

/-- The decoded `tx.memo` argument of `memoToHex`: absent (`undefined`),
a `u64` number/bigint, or a byte sequence (`Uint8Array`). -/
inductive MemoVal where
  | absent
  | num (n : Nat)
  | bytes (bs : List Nat)
deriving DecidableEq, Repr

/-- The decoded ICP ledger operation variant (`Transfer` / `Mint` / `Burn` /
`Approve`), with the fields `handleBlock` reads.  `amount` is `e8s` with the
code's `|| 0n` default already applied. -/
inductive IcpOperation where
  | transfer (source dest : List Nat) (amount : Nat)
  | mint (dest : List Nat) (amount : Nat)
  | burn (source : List Nat) (amount : Nat)
  | approve (source : List Nat)
deriving DecidableEq, Repr

/-- A decoded ICP ledger block as consumed by `handleBlock`.
`timestamp` is `timestamp_nanos` (`none` models an undecodable timestamp, for
which `n64ToMillis` returns `null`); `operation` is the optional operation
(`none` models the `if (!optInner) return` case). -/
structure IcpBlock where
  timestamp : Option Nat
  operation : Option IcpOperation
  memo : MemoVal
deriving DecidableEq, Repr

/- ---------------- Decimal digit-string helpers ---------------- -/

/-- `raw.replace(/^0+/, "") || "0"` on a digit string. -/
def stripLeadingZeros (raw : List Nat) : List Nat :=
  match raw.dropWhile (· == 0) with
  | [] => [0]
  | s => s

/-- `frac.replace(/0+$/, "")` on a digit string. -/
def trimTrailingZeros (frac : List Nat) : List Nat :=
  (frac.reverse.dropWhile (· == 0)).reverse

/-- Base-`b` digit string of a positive number, most significant digit first
(empty for zero).  The `fuel` argument only drives structural termination;
`fuel = v` always suffices. -/
def natDigitsInBase (b : Nat) : Nat → Nat → List Nat
  | 0, _ => []
  | fuel + 1, v =>
    if v = 0 then [] else natDigitsInBase b fuel (v / b) ++ [v % b]

/-- The decimal digit string `v.toString()` of a natural number, most
significant digit first (`"0"` for zero). -/
def natDigits (v : Nat) : List Nat :=
  if v = 0 then [0] else natDigitsInBase 10 v v

/-- Numeric value of a decimal digit string. -/
def digitsVal (s : List Nat) : Nat :=
  s.foldl (fun a d => 10 * a + d) 0

/-- `formatAmount(raw, decimals)` of `scanner.ts` (lines 1269-1276), on digit
strings.  `s.slice(0, -decimals)` is `take (s.length - decimals)`,
`s.slice(-decimals)` is `drop (s.length - decimals)`, and
`s.padStart(decimals, "0")` is left-padding with zero digits.  The result is
the (whole, fraction) digit pair; an empty fraction means the decimal point
is omitted. -/
def formatAmount (raw : List Nat) (decimals : Nat) : DecimalDigits :=
  let s := stripLeadingZeros raw
  if decimals = 0 then (s, [])
  else
    let whole := if decimals < s.length then s.take (s.length - decimals) else [0]
    let frac :=
      if decimals < s.length then s.drop (s.length - decimals)
      else List.replicate (decimals - s.length) 0 ++ s
    (whole, trimTrailingZeros frac)

/-- `formatAmount(value, decimals)` of `rosetta-flow-retriever.ts`
(lines 150-159), on a non-negative digit string (so the `startsWith("-")`
branches are inactive).  `padStart(decimals + 1, "0")` left-pads;
`slice(0, -decimals)` and `slice(-decimals)` are `take` / `drop` of the last
`decimals` digits when `decimals ≥ 1`, but for `decimals = 0` JavaScript's
`slice(0, -0)` is the empty string (so the `|| "0"` fallback fires) and
`slice(-0)` is the whole string. -/
def rosettaFormatAmount (value : List Nat) (decimals : Nat) : DecimalDigits :=
  let padded := List.replicate (decimals + 1 - value.length) 0 ++ value
  let integerPart :=
    if decimals = 0 then [0] else padded.take (padded.length - decimals)
  let fractionalPart :=
    if decimals = 0 then padded else padded.drop (padded.length - decimals)
  (integerPart, trimTrailingZeros fractionalPart)

/-- Re-parse a rendered amount as a fixed-point decimal with `d` fractional
digits, as the spec's round-trip property reads it: `some` of
`whole * 10^d + frac * 10^(d - frac.length)` when the fractional part fits in
`d` digits, `none` when the rendered string has more fractional digits than a
`d`-digit fixed-point number allows. -/
def parseDecimal (p : DecimalDigits) (d : Nat) : Option Nat :=
  if p.2.length ≤ d then
    some (digitsVal p.1 * 10 ^ d + digitsVal p.2 * 10 ^ (d - p.2.length))
  else none

/- ---------------- Subaccounts and account equality ---------------- -/

/-- `normalizeSub` of `scanner.ts` (lines 1252-1256): `null`/empty stays
`null`, 32 zero bytes become `null`, anything else is returned unchanged. -/
def normalizeSub (sa : Option (List Nat)) : Option (List Nat) :=
  match sa with
  | none => none
  | some s =>
    if s.isEmpty then none
    else if s.length = 32 && s.all (· == 0) then none
    else some s

/-- `eqAccount(a, b)` of `scanner.ts` (lines 1258-1267): `null` never matches;
otherwise owner text equality, then equality of the normalized subaccounts
(`!sa && !sb`, truthiness mismatch, length mismatch, byte-wise compare). -/
def eqAccount (a : Option Account) (b : Account) : Bool :=
  match a with
  | none => false
  | some a =>
    if a.owner != b.owner then false
    else
      match normalizeSub a.subaccount, normalizeSub b.subaccount with
      | none, none => true
      | some sa, some sb =>
        sa.length == sb.length && (List.zip sa sb).all (fun p => p.1 == p.2)
      | _, _ => false

/- ---------------- Hex rendering ---------------- -/

/-- `n.toString(16)` of a non-negative bigint: lowercase hex digits, most
significant first, `"0"` for zero. -/
def natToHexChars (n : Nat) : List Char :=
  if n = 0 then ['0'] else (natDigitsInBase 16 n n).map Nat.digitChar

/-- `l.padStart(n, c)` on character lists. -/
def padStartChars (l : List Char) (n : Nat) (c : Char) : List Char :=
  List.replicate (n - l.length) c ++ l

/-- `b.toString(16).padStart(2, "0")`: the two-digit lowercase hex encoding of
one byte. -/
def byteHexChars (b : Nat) : List Char :=
  padStartChars (natToHexChars b) 2 '0'

/-- `toHex` / `bytesToHex` / `accountIdToHex` of `scanner.ts`: per-byte
two-digit lowercase hex. -/
def bytesHexStr (bytes : List Nat) : String :=
  String.mk (bytes.flatMap byteHexChars)

/-- The sixteen lowercase hex digit characters, `"0123456789abcdef"`. -/
def hexLowerChars : List Char :=
  (List.range 16).map Nat.digitChar

/-- `memoToHex(m)` of `scanner.ts` (lines 1167-1175): falsy (`undefined` or
numeric zero) gives `""`; a number/bigint gives
`BigInt(m).toString(16).padStart(16, "0")`; a byte sequence gives its
per-byte two-digit hex encoding. -/
def memoToHex (m : MemoVal) : String :=
  match m with
  | .absent => ""
  | .num n => if n = 0 then "" else String.mk (padStartChars (natToHexChars n) 16 '0')
  | .bytes bs => String.mk (bs.flatMap byteHexChars)

/- ---------------- Tagged-value decoding ---------------- -/

/-- `extractValue(value, key)` of `scanner.ts` (lines 1187-1194): `null` for a
missing/non-map value, otherwise the first entry with the given key. -/
def extractValue (value : Option Value) (key : String) : Option Value :=
  match value with
  | some (.map entries) => (entries.find? (fun e => e.1 == key)).map (·.2)
  | _ => none

/-- `extractText(value)` of `scanner.ts` (lines 1196-1203). -/
def extractText (value : Option Value) : String :=
  match value with
  | some (.text s) => s
  | some (.natV n) => Nat.repr n
  | some (.intV i) => Int.repr i
  | _ => ""

/-- `extractNat(value)` of `scanner.ts` (lines 1205-1209): defaults to zero. -/
def extractNat (value : Option Value) : Nat :=
  match value with
  | some (.natV n) => n
  | _ => 0

/-- `extractBlob(value)` of `scanner.ts` (lines 1211-1215): defaults to empty. -/
def extractBlob (value : Option Value) : List Nat :=
  match value with
  | some (.blob b) => b
  | _ => []

/-- `extractAccount(value)` of `scanner.ts` (lines 1217-1249).  `decode`
stands for `Principal.fromUint8Array(...).toText()`, with `none` for the
thrown/caught case.  Map form `{owner: Blob, subaccount: opt Blob}` requires a
non-empty owner blob; array form `[ownerBlob, subaccountBlob?]` requires a
blob in the first slot (`arr[0]?.Blob`, truthy even when empty); every other
shape yields `null`. -/
def extractAccount (decode : List Nat → Option String) (value : Option Value) :
    Option Account :=
  match value with
  | some (.map entries) =>
    let ownerVal := extractValue (some (.map entries)) "owner"
    let subVal := extractValue (some (.map entries)) "subaccount"
    let ownerBlob := extractBlob ownerVal
    if ownerBlob.isEmpty then none
    else
      match decode ownerBlob with
      | none => none
      | some owner =>
        let sub := extractBlob subVal
        some ⟨owner, if sub.isEmpty then none else some sub⟩
  | some (.arr elems) =>
    match elems.head? with
    | some (.blob ownerBytes) =>
      (match decode ownerBytes with
       | none => none
       | some owner =>
         let sub : Option (List Nat) :=
           match elems[1]? with
           | some (Value.blob b) => some b
           | _ => none
         some ⟨owner,
           match sub with
           | some b => if b.isEmpty then none else some b
           | none => none⟩)
    | _ => none
  | _ => none

/- ---------------- ICP block handler (parallel variant) ---------------- -/

/-- `n64ToMillis` of `scanner.ts` on a decoded `timestamp_nanos`:
`Number(BigInt(nanos) / 1_000_000n)`, `null` when undecodable. -/
def n64ToMillis (nanos : Option Nat) : Option Nat :=
  nanos.map (· / 1000000)

/-- The direction chain of `handleBlock` (`scanner.ts` lines 1581-1584) on
account-identifier hex strings. -/
def classifyIcpDirection (fromHex toHex targetHex : String) : Option Direction :=
  if fromHex == targetHex && toHex == targetHex then some .self
  else if toHex == targetHex then some .inflow
  else if fromHex == targetHex then some .outflow
  else none

/-- `handleBlock(block, blockIndex)` of the parallel `scanIcpLedger`
(`scanner.ts` lines 1560-1602), returning the row it pushes (or `none`).
`if (ts && (ts < FROM_MS || ts > TO_MS)) return` — note `ts` is falsy both
when `null` and when `0`, modelled by `tsv = 0`; only `Transfer` operations
are handled; `date_iso` is `""` when `ts` is falsy. -/
def handleBlock (toIso : Nat → String) (targetHex : String) (fromMs toMs : Nat)
    (symbol : String) (decimals : Nat) (blockIndex : Nat) (block : IcpBlock) :
    Option CsvRow :=
  let ts := n64ToMillis block.timestamp
  let tsv := ts.getD 0
  if tsv ≠ 0 ∧ (tsv < fromMs ∨ tsv > toMs) then none
  else
    match block.operation with
    | none => none
    | some op =>
      match op with
      | .transfer source dest amount =>
        let fromHex := bytesHexStr source
        let toHex := bytesHexStr dest
        let memo := memoToHex block.memo
        match classifyIcpDirection fromHex toHex targetHex with
        | none => none
        | some direction =>
          some
            { date_iso := if tsv ≠ 0 then toIso tsv else ""
              token := symbol
              direction := direction
              amount := formatAmount (natDigits amount) decimals
              from_principal := ""
              to_principal := ""
              block_index := blockIndex
              memo := memo }
      | _ => none

/- ---------------- ICRC block handler (parallel variant) ---------------- -/

/-- The direction chain of `handleIcrcBlock` (`scanner.ts` lines 1698-1703):
only when both sides decoded, `self` / `inflow` / `outflow` by `eqAccount`,
else `null`. -/
def classifyIcrcDirection (source dest : Option Account) (wallet : Account) :
    Option Direction :=
  match source, dest with
  | some f, some t =>
    if eqAccount (some f) wallet && eqAccount (some t) wallet then some .self
    else if eqAccount (some t) wallet then some .inflow
    else if eqAccount (some f) wallet then some .outflow
    else none
  | _, _ => none

/-- `a || b || c` on strings (first non-empty, else `""`). -/
def firstNonEmptyStr (a b c : String) : String :=
  if a ≠ "" then a else if b ≠ "" then b else c

/-- `handleIcrcBlock(bw)` of the parallel `scanIcrcLedger` (`scanner.ts`
lines 1679-1719), returning the row it pushes (or `none`): out-of-window
timestamps drop the block; the `tx` field must be a map; the operation kind is
`tx.op` with block-level `btype` / `type` fallbacks and must be
`"xfer"`/`"transfer"`; direction classification via `eqAccount`. -/
def handleIcrcBlock (decode : List Nat → Option String) (toIso : Nat → String)
    (wallet : Account) (fromTs toTs : Nat) (symbol : String) (decimals : Nat)
    (id : Nat) (block : Value) : Option CsvRow :=
  let ts := extractNat (extractValue (some block) "ts")
  if ts < fromTs ∨ ts > toTs then none
  else
    let tx := extractValue (some block) "tx"
    match tx with
    | some (.map txEntries) =>
      let txv : Option Value := some (.map txEntries)
      let opType :=
        firstNonEmptyStr (extractText (extractValue txv "op"))
          (extractText (extractValue (some block) "btype"))
          (extractText (extractValue (some block) "type"))
      if opType ≠ "xfer" ∧ opType ≠ "transfer" then none
      else
        let source := extractAccount decode (extractValue txv "from")
        let dest := extractAccount decode (extractValue txv "to")
        let amount := extractNat (extractValue txv "amt")
        let memo := bytesHexStr (extractBlob (extractValue txv "memo"))
        match classifyIcrcDirection source dest wallet with
        | none => none
        | some direction =>
          some
            { date_iso := toIso (ts / 1000000)
              token := symbol
              direction := direction
              amount := formatAmount (natDigits amount) decimals
              from_principal := ((source.map (·.owner)).getD "")
              to_principal := ((dest.map (·.owner)).getD "")
              block_index := id
              memo := memo }
    | _ => none

/- ---------------- Scan window and segments ---------------- -/

/-- The scan-window start of `scanIcpLedger` / `scanIcrcLedger`
(`scanner.ts` lines 1543-1545, 1662-1664):
`endIndex > maxBlocks ? endIndex - maxBlocks : 0`. -/
def scanStartIndex (endIndex maxBlocks : Nat) : Nat :=
  if maxBlocks < endIndex then endIndex - maxBlocks else 0

/-- One iteration step of the `buildSegments` while loop, with explicit fuel
(the source loop terminates because each iteration consumes at least one
block index whenever `page ≥ 1`; with `page = 0` the source would not
terminate, and the fuel in `buildSegments` is chosen so that it never runs
out when `page ≥ 1`). -/
def buildSegmentsAux (page startIndex : Nat) :
    Nat → Nat → Nat → List Segment
  | 0, _, _ => []
  | fuel + 1, cursor, idx =>
    if startIndex ≤ cursor then
      let length := min page (cursor - startIndex + 1)
      let start := cursor - (length - 1)
      let seg : Segment := ⟨start, length, idx⟩
      if start = 0 then [seg]
      else seg :: buildSegmentsAux page startIndex fuel (start - 1) (idx + 1)
    else []

/-- `buildSegments(startIndex, endIndex, page)` of `scanner.ts`
(lines 1306-1319): descending fixed-size segments covering
`[startIndex, endIndex]`, most recent first. -/
def buildSegments (startIndex endIndex : Nat) (page : Nat) : List Segment :=
  buildSegmentsAux page startIndex (endIndex + 1) endIndex 0

/-- The block-index range `[seg.start, seg.start + seg.length - 1]` covered by
one segment, in ascending order. -/
def segRange (seg : Segment) : List Nat :=
  List.range' seg.start seg.length

/- ---------------- Segment scan failure policy ---------------- -/

/-- The per-segment loop of the parallel scanners (`scanner.ts`
lines 1604-1633, 1721-1749): every segment is fetched inside its own
`try`/`catch`, a failed fetch is logged and contributes no rows, and every
other segment is still processed.  Completion order of the concurrent tasks
is abstracted as list order. -/
def scanSegmentsParallel {B E : Type} (fetch : Segment → Except E (List B))
    (handle : B → Option CsvRow) (segs : List Segment) : List CsvRow :=
  segs.flatMap (fun s =>
    match fetch s with
    | .ok bs => bs.filterMap handle
    | .error _ => [])

/-- The paging loop of the sequential `scanIcpLedger` variant (`scanner.ts`
lines 356-558): segments are fetched in order inside one `try`/`catch` whose
`catch` does `break`, so a failed fetch ends the whole loop and every
remaining (older) segment is skipped. -/
def scanSegmentsSequential {B E : Type} (fetch : Segment → Except E (List B))
    (handle : B → Option CsvRow) : List Segment → List CsvRow
  | [] => []
  | s :: rest =>
    match fetch s with
    | .error _ => []
    | .ok bs => bs.filterMap handle ++ scanSegmentsSequential fetch handle rest

/- ---------------- api_scanner.ts matching and mapping ---------------- -/

/-- An ICRC account as `api_scanner.ts` sees it over REST:
`{ owner?: string; subaccount?: string }`. -/
structure AccountJs where
  owner : Option String
  subaccount : Option String
deriving DecidableEq, Repr

/-- `s.toLowerCase()` on the character list of a string. -/
def toLowerStr (s : String) : String :=
  String.mk (s.data.map Char.toLower)

/-- `s.replace(/^0x/, "")`: drop a leading `0x`. -/
def stripHexMarker (s : String) : String :=
  if s.data.take 2 == ['0', 'x'] then String.mk (s.data.drop 2) else s

/-- `utils.normalizeSubaccount(sub)` of `api_scanner.ts` (lines 246-249):
strip a `0x` prefix, lowercase, and collapse empty or all-zero strings to
`""`. -/
def normalizeSubaccountHex (sub : Option String) : String :=
  let raw := sub.getD ""
  let normalized := toLowerStr (stripHexMarker raw)
  if normalized == "" || normalized.data.all (· == '0') then "" else normalized

/-- `matching.equalSubaccounts(a, b)` of `api_scanner.ts` (lines 806-810). -/
def equalSubaccounts (a b : Option String) : Bool :=
  normalizeSubaccountHex a == normalizeSubaccountHex b

/-- `matching.matchesIcrcAccount(account, walletOwner, walletSubHex)` of
`api_scanner.ts` (lines 815-823): falsy or mismatching owner fails; when
strict-subaccount mode is off the match succeeds on owner alone; otherwise
normalized subaccount equality is also required.
`strict` is `config.scanning.strictSubaccountMatch`. -/
def matchesIcrcAccount (strict : Bool) (account : Option AccountJs)
    (walletOwner : String) (walletSubHex : Option String) : Bool :=
  match account with
  | none => false
  | some a =>
    match a.owner with
    | none => false
    | some o =>
      if o == "" then false
      else if o != walletOwner then false
      else if !strict then true
      else equalSubaccounts a.subaccount walletSubHex

/-- The direction logic of `csvMapping.fromIcpTransaction` (`api_scanner.ts`
lines 849-870): lowercase the operation and the account-identifier hex
strings; `mint` and `burn` are classified unconditionally; `transfer` is
classified against the wallet account identifier; anything else yields
`null`. -/
def fromIcpTransactionDirection (transferType fromAcc toAcc walletAccountIdHex :
    String) : Option Direction :=
  let operation := toLowerStr transferType
  let fromHex := toLowerStr fromAcc
  let toHex := toLowerStr toAcc
  let accountIdHex := toLowerStr walletAccountIdHex
  if operation == "mint" then some .mint
  else if operation == "burn" then some .burn
  else if operation == "transfer" then
    if fromHex == accountIdHex && toHex == accountIdHex then some .self
    else if toHex == accountIdHex then some .inflow
    else if fromHex == accountIdHex then some .outflow
    else none
  else none

/-- The direction logic of `csvMapping.fromIcrcTransaction` (`api_scanner.ts`
lines 893-905): both sides are matched with `matchesIcrcAccount` (called
without a wallet subaccount argument), then `self` / `inflow` / `outflow` /
`null`. -/
def fromIcrcTransactionDirection (strict : Bool) (source dest : Option AccountJs)
    (walletOwner : String) : Option Direction :=
  let fromMatches := matchesIcrcAccount strict source walletOwner none
  let toMatches := matchesIcrcAccount strict dest walletOwner none
  if fromMatches && toMatches then some .self
  else if toMatches then some .inflow
  else if fromMatches then some .outflow
  else none

/- ==================== Helper lemmas: digit strings ==================== -/

theorem digitsVal_foldl (s : List Nat) :
    ∀ x : Nat, s.foldl (fun a d => 10 * a + d) x = x * 10 ^ s.length + digitsVal s := by
  induction s with
  | nil => intro x; simp [digitsVal]
  | cons d t ih =>
    intro x
    have hcons : digitsVal (d :: t) = d * 10 ^ t.length + digitsVal t := by
      simp only [digitsVal, List.foldl_cons]
      simpa using ih d
    simp only [List.foldl_cons, List.length_cons]
    rw [ih (10 * x + d), hcons]
    ring

theorem digitsVal_append (a b : List Nat) :
    digitsVal (a ++ b) = digitsVal a * 10 ^ b.length + digitsVal b := by
  simp only [digitsVal, List.foldl_append]
  exact digitsVal_foldl b (List.foldl (fun a d => 10 * a + d) 0 a)

theorem digitsVal_replicate_zero (k : Nat) : digitsVal (List.replicate k 0) = 0 := by
  induction k with
  | zero => rfl
  | succ k ih => simpa [digitsVal, List.replicate_succ, List.foldl_cons] using ih

theorem digitsVal_dropWhile_zero (s : List Nat) :
    digitsVal (s.dropWhile (· == 0)) = digitsVal s := by
  induction s with
  | nil => rfl
  | cons d t ih =>
    by_cases hd : d = 0
    · subst hd
      simpa [digitsVal, List.dropWhile_cons] using ih
    · simp [List.dropWhile_cons, hd]

theorem digitsVal_stripLeadingZeros (s : List Nat) :
    digitsVal (stripLeadingZeros s) = digitsVal s := by
  unfold stripLeadingZeros
  rcases h : s.dropWhile (· == 0) with - | ⟨d, t⟩
  · have h0 := digitsVal_dropWhile_zero s
    rw [h] at h0
    simp [digitsVal] at h0 ⊢
    omega
  · have h0 := digitsVal_dropWhile_zero s
    rw [h] at h0
    exact h0

theorem digitsVal_natDigitsInBase10 (fuel : Nat) :
    ∀ v : Nat, v ≤ fuel → digitsVal (natDigitsInBase 10 fuel v) = v := by
  induction fuel with
  | zero =>
    intro v hv
    interval_cases v
    rfl
  | succ fuel ih =>
    intro v hv
    by_cases hv0 : v = 0
    · subst hv0
      simp [natDigitsInBase, digitsVal]
    · rw [natDigitsInBase, if_neg hv0, digitsVal_append]
      have hdiv : v / 10 ≤ fuel := by
        have := Nat.div_lt_self (Nat.pos_of_ne_zero hv0) (by norm_num : 1 < 10)
        omega
      rw [ih (v / 10) hdiv]
      have hone : digitsVal [v % 10] = v % 10 := by simp [digitsVal]
      rw [hone]
      simp only [List.length_cons, List.length_nil, pow_succ, pow_zero, one_mul]
      omega

theorem digitsVal_natDigits (v : Nat) : digitsVal (natDigits v) = v := by
  unfold natDigits
  by_cases hv : v = 0
  · simp [hv, digitsVal]
  · rw [if_neg hv]
    exact digitsVal_natDigitsInBase10 v v le_rfl

theorem trimTrailingZeros_decomp (l : List Nat) :
    ∃ k, l = trimTrailingZeros l ++ List.replicate k 0
      ∧ (trimTrailingZeros l).length + k = l.length := by
  refine ⟨(l.reverse.takeWhile (· == 0)).length, ?_, ?_⟩
  · have hsplit : l.reverse.takeWhile (· == 0) ++ l.reverse.dropWhile (· == 0)
        = l.reverse := List.takeWhile_append_dropWhile _ _
    have hrep : (l.reverse.takeWhile (· == 0)).reverse
        = List.replicate (l.reverse.takeWhile (· == 0)).length 0 := by
      have hmem : ∀ b ∈ (l.reverse.takeWhile (· == 0)).reverse, b = 0 := by
        intro b hb
        have := List.mem_takeWhile_imp (List.mem_reverse.mp hb)
        simpa using this
      simpa using List.eq_replicate_of_mem hmem
    calc l = l.reverse.reverse := (List.reverse_reverse l).symm
    _ = (l.reverse.takeWhile (· == 0) ++ l.reverse.dropWhile (· == 0)).reverse := by
        rw [hsplit]
    _ = (l.reverse.dropWhile (· == 0)).reverse
          ++ (l.reverse.takeWhile (· == 0)).reverse := by
        rw [List.reverse_append]
    _ = trimTrailingZeros l
          ++ List.replicate (l.reverse.takeWhile (· == 0)).length 0 := by
        rw [trimTrailingZeros, hrep]
  · have hsplit : l.reverse.takeWhile (· == 0) ++ l.reverse.dropWhile (· == 0)
        = l.reverse := List.takeWhile_append_dropWhile _ _
    have := congrArg List.length hsplit
    simp only [List.length_append, List.length_reverse] at this
    simp only [trimTrailingZeros, List.length_reverse]
    omega

theorem parseDecimal_trim (w f : List Nat) (d : Nat) (hf : f.length = d) :
    parseDecimal (w, trimTrailingZeros f) d = some (digitsVal w * 10 ^ d + digitsVal f) := by
  obtain ⟨k, hdecomp, hlen⟩ := trimTrailingZeros_decomp f
  have hle : (trimTrailingZeros f).length ≤ d := by omega
  have hk : d - (trimTrailingZeros f).length = k := by omega
  have hval : digitsVal f = digitsVal (trimTrailingZeros f) * 10 ^ k := by
    conv_lhs => rw [hdecomp]
    rw [digitsVal_append, digitsVal_replicate_zero, List.length_replicate, Nat.add_zero]
  simp only [parseDecimal, hle, if_pos, hk, hval]

/-- Core round-trip for the `scanner.ts` / `api_scanner.ts` `formatAmount`. -/
theorem parseDecimal_formatAmount (v d : Nat) :
    parseDecimal (formatAmount (natDigits v) d) d = some v := by
  unfold formatAmount
  have hsv : digitsVal (stripLeadingZeros (natDigits v)) = v := by
    rw [digitsVal_stripLeadingZeros, digitsVal_natDigits]
  by_cases hd : d = 0
  · subst hd
    simp [parseDecimal, digitsVal]
    exact hsv
  · rw [if_neg hd]
    set s := stripLeadingZeros (natDigits v) with hs
    by_cases hlen : d < s.length
    · simp only [if_pos hlen]
      have hfl : (s.drop (s.length - d)).length = d := by
        simp [List.length_drop]
        omega
      rw [parseDecimal_trim _ _ _ hfl]
      congr 1
      have hsplit : s.take (s.length - d) ++ s.drop (s.length - d) = s :=
        List.take_append_drop _ s
      have := digitsVal_append (s.take (s.length - d)) (s.drop (s.length - d))
      rw [hsplit, hfl] at this
      omega
    · simp only [if_neg hlen]
      have hfl : (List.replicate (d - s.length) 0 ++ s).length = d := by
        simp [List.length_append, List.length_replicate]
        omega
      rw [parseDecimal_trim _ _ _ hfl]
      congr 1
      rw [digitsVal_append, digitsVal_replicate_zero]
      simpa [digitsVal] using hsv

/-- Core round-trip for the `rosetta-flow-retriever.ts` `formatAmount`, on
`decimals ≥ 1`. -/
theorem parseDecimal_rosettaFormatAmount (v d : Nat) (hd : 1 ≤ d) :
    parseDecimal (rosettaFormatAmount (natDigits v) d) d = some v := by
  unfold rosettaFormatAmount
  have hdne : d ≠ 0 := by omega
  simp only [if_neg hdne]
  set padded := List.replicate (d + 1 - (natDigits v).length) 0 ++ natDigits v with hp
  have hpadval : digitsVal padded = v := by
    rw [hp, digitsVal_append, digitsVal_replicate_zero, digitsVal_natDigits]
    ring
  have hplen : d < padded.length := by
    rw [hp]
    simp [List.length_append, List.length_replicate]
    omega
  have hfl : (padded.drop (padded.length - d)).length = d := by
    simp [List.length_drop]
    omega
  rw [parseDecimal_trim _ _ _ hfl]
  congr 1
  have hsplit : padded.take (padded.length - d) ++ padded.drop (padded.length - d) = padded :=
    List.take_append_drop _ padded
  have := digitsVal_append (padded.take (padded.length - d)) (padded.drop (padded.length - d))
  rw [hsplit, hfl] at this
  omega

theorem trimTrailingZeros_getLast_ne_zero (l : List Nat) :
    (trimTrailingZeros l).getLast? ≠ some 0 := by
  unfold trimTrailingZeros
  rcases h : l.reverse.dropWhile (· == 0) with - | ⟨d, t⟩
  · simp
  · have hd : ¬ (d == 0) = true := by
      intro hcon
      have := List.head?_dropWhile_not (· == 0) l.reverse
      rw [h] at this
      simp at this
      simp at hcon
      exact this hcon
    intro hcon
    rw [List.getLast?_reverse] at hcon
    simp at hcon
    simp [hcon] at hd

/- ==================== Claim C5 (amount formatting round-trip) ==================== -/

/-- Claim C5, counterexample: the `rosetta-flow-retriever.ts` `formatAmount`
renders `v = 5` at `decimals = 0` as `"0.5"` (whole part `0`, fractional part
`5`), which is not a fixed-point decimal with `0` fractional digits and does
not re-parse to `5`; the claim's round-trip fails at `(v, d) = (5, 0)` for
this cited implementation. -/
theorem c5_counterexample :
    rosettaFormatAmount (natDigits 5) 0 = ([0], [5])
    ∧ parseDecimal (rosettaFormatAmount (natDigits 5) 0) 0 = none := by
  decide

/-- Claim C5, amended: for `scanner.ts`'s `formatAmount`, re-parsing the
rendered string as a fixed-point decimal with `d` fractional digits recovers
`v` exactly for all `v ≥ 0, d ≥ 0`, and the rendered fractional part never
ends in a trailing zero (the point being omitted when the fraction is empty);
the `rosetta-flow-retriever.ts` variant satisfies the same round-trip only
for `d ≥ 1`. -/
theorem c5_format_parse_roundtrip :
    (∀ v d : Nat, parseDecimal (formatAmount (natDigits v) d) d = some v)
    ∧ (∀ v d : Nat, 1 ≤ d → parseDecimal (rosettaFormatAmount (natDigits v) d) d = some v)
    ∧ (∀ v d : Nat, (formatAmount (natDigits v) d).2.getLast? ≠ some 0) := by
  refine ⟨parseDecimal_formatAmount, parseDecimal_rosettaFormatAmount, ?_⟩
  intro v d
  unfold formatAmount
  by_cases hd : d = 0
  · simp [hd]
  · rw [if_neg hd]
    exact trimTrailingZeros_getLast_ne_zero _

/-- Claim C5 witness: the round-trip evaluated at concrete inputs. -/
theorem c5_witness :
    parseDecimal (formatAmount (natDigits 5000000) 8) 8 = some 5000000
    ∧ (1 ≤ 8 ∧ parseDecimal (rosettaFormatAmount (natDigits 5000000) 8) 8 = some 5000000) :=
  ⟨c5_format_parse_roundtrip.1 5000000 8,
   by decide,
   c5_format_parse_roundtrip.2.1 5000000 8 (by decide)⟩

/- ==================== Claim C6 (subaccount normalization) ==================== -/

/-- Claim C6: for every 32-byte sub-identity `s`, `normalizeSub` returns
`none` exactly when every byte of `s` is zero, and returns `s` unchanged
otherwise. -/
theorem c6_normalizeSub_allZero (s : List Nat) (h : s.length = 32) :
    (normalizeSub (some s) = none ↔ ∀ b ∈ s, b = 0)
    ∧ ((∃ b ∈ s, b ≠ 0) → normalizeSub (some s) = some s) := by
  have hne : s.isEmpty = false := by
    rcases s with - | ⟨a, t⟩
    · simp at h
    · rfl
  have hd : (decide (s.length = 32)) = true := by simp [h]
  by_cases hz : ∀ b ∈ s, b = 0
  · have hall : s.all (· == 0) = true := by
      rw [List.all_eq_true]
      intro b hb
      simpa using hz b hb
    refine ⟨?_, ?_⟩
    · simp only [normalizeSub, hne, Bool.false_eq_true, if_false, hd, hall,
        Bool.and_self, if_true]
      simpa using hz
    · intro hex
      obtain ⟨b, hb, hbne⟩ := hex
      exact absurd (hz b hb) hbne
  · have hall : s.all (· == 0) = false := by
      rw [← Bool.not_eq_true, List.all_eq_true]
      intro hcon
      exact hz fun b hb => by simpa using hcon b hb
    refine ⟨?_, fun _ => ?_⟩
    · simp [normalizeSub, hne, hd, hall, hz]
    · simp [normalizeSub, hne, hd, hall]

/-- Claim C6 witness: the all-zero 32-byte sub-identity normalizes to `none`;
a 32-byte sub-identity with one nonzero byte is returned unchanged. -/
theorem c6_witness :
    ((List.replicate 32 0).length = 32
      ∧ normalizeSub (some (List.replicate 32 0)) = none)
    ∧ ((1 :: List.replicate 31 0).length = 32
      ∧ normalizeSub (some (1 :: List.replicate 31 0)) = some (1 :: List.replicate 31 0)) :=
  ⟨⟨by decide, (c6_normalizeSub_allZero (List.replicate 32 0) (by decide)).1.mpr (by decide)⟩,
   ⟨by decide, (c6_normalizeSub_allZero (1 :: List.replicate 31 0) (by decide)).2 (by decide)⟩⟩

/- ==================== Claim C8 (extractAccount totality) ==================== -/

/-- Claim C8: `extractAccount` is a total function (it is defined by
structural cases, never raising), and it returns `null` on every malformed
identity: a missing value, a map form whose `owner` entry is not a non-empty
blob, owner bytes rejected by the principal decoder, an array form whose
first element is missing or not a blob, and every non-map non-array shape. -/
theorem c8_extractAccount_malformed (decode : List Nat → Option String) :
    extractAccount decode none = none
    ∧ (∀ entries, extractBlob (extractValue (some (.map entries)) "owner") = [] →
        extractAccount decode (some (.map entries)) = none)
    ∧ (∀ entries, decode (extractBlob (extractValue (some (.map entries)) "owner")) = none →
        extractAccount decode (some (.map entries)) = none)
    ∧ extractAccount decode (some (.arr [])) = none
    ∧ (∀ v rest, (∀ b, v ≠ .blob b) → extractAccount decode (some (.arr (v :: rest))) = none)
    ∧ (∀ b rest, decode b = none → extractAccount decode (some (.arr (.blob b :: rest))) = none)
    ∧ (∀ bytes, extractAccount decode (some (.blob bytes)) = none)
    ∧ (∀ s, extractAccount decode (some (.text s)) = none)
    ∧ (∀ n, extractAccount decode (some (.natV n)) = none)
    ∧ (∀ i, extractAccount decode (some (.intV i)) = none) := by
  refine ⟨rfl, ?_, ?_, rfl, ?_, ?_, fun _ => rfl, fun _ => rfl, fun _ => rfl, fun _ => rfl⟩
  · intro entries hblob
    simp [extractAccount, hblob]
  · intro entries hdec
    by_cases hb : (extractBlob (extractValue (some (.map entries)) "owner")).isEmpty
    · simp [extractAccount, hb]
    · simp [extractAccount, hb, hdec]
  · intro v rest hv
    cases v with
    | blob b => exact absurd rfl (hv b)
    | text s => rfl
    | natV n => rfl
    | intV i => rfl
    | arr es => rfl
    | map m => rfl
  · intro b rest hdec
    simp [extractAccount, hdec]

/-- Claim C8 witness: the malformed cases evaluated at concrete inputs, with
a decoder that accepts and one that rejects. -/
theorem c8_witness :
    extractAccount (fun bs => some (Nat.repr bs.length)) (some (.map [("subaccount", .blob [1])]))
      = none
    ∧ extractAccount (fun _ => none) (some (.map [("owner", .blob [1, 2])])) = none
    ∧ extractAccount (fun bs => some (Nat.repr bs.length)) (some (.arr [.text "x"])) = none
    ∧ extractAccount (fun bs => some (Nat.repr bs.length)) (some (.text "acct")) = none :=
  ⟨(c8_extractAccount_malformed (fun bs => some (Nat.repr bs.length))).2.1
      [("subaccount", .blob [1])] (by decide),
   (c8_extractAccount_malformed (fun _ => none)).2.2.1 [("owner", .blob [1, 2])] (by decide),
   (c8_extractAccount_malformed (fun bs => some (Nat.repr bs.length))).2.2.2.2.1
      (.text "x") [] (fun b => by intro hcon; cases hcon),
   (c8_extractAccount_malformed (fun bs => some (Nat.repr bs.length))).2.2.2.2.2.2.2.1 "acct"⟩

/- ==================== Claim C10 (memoToHex) ==================== -/

theorem natDigitsInBase_length_le (b : Nat) (hb : 2 ≤ b) :
    ∀ fuel v k : Nat, v < b ^ k → (natDigitsInBase b fuel v).length ≤ k := by
  intro fuel
  induction fuel with
  | zero =>
    intro v k _
    simp [natDigitsInBase]
  | succ fuel ih =>
    intro v k hv
    by_cases hv0 : v = 0
    · simp [natDigitsInBase, hv0]
    · rw [natDigitsInBase, if_neg hv0]
      have hk : k ≠ 0 := by
        intro hk0
        subst hk0
        simp at hv
        omega
      obtain ⟨k', rfl⟩ : ∃ k', k = k' + 1 := ⟨k - 1, by omega⟩
      have hdiv : v / b < b ^ k' := by
        rw [Nat.div_lt_iff_lt_mul (by omega : 0 < b)]
        calc v < b ^ (k' + 1) := hv
        _ = b ^ k' * b := by ring
      have := ih (v / b) k' hdiv
      simp only [List.length_append, List.length_cons, List.length_nil]
      omega

theorem natDigitsInBase_lt (b : Nat) (hb : 0 < b) :
    ∀ fuel v : Nat, ∀ d ∈ natDigitsInBase b fuel v, d < b := by
  intro fuel
  induction fuel with
  | zero =>
    intro v d hd
    simp [natDigitsInBase] at hd
  | succ fuel ih =>
    intro v d hd
    by_cases hv0 : v = 0
    · simp [natDigitsInBase, hv0] at hd
    · rw [natDigitsInBase, if_neg hv0] at hd
      rcases List.mem_append.mp hd with h1 | h2
      · exact ih (v / b) d h1
      · simp at h2
        subst h2
        exact Nat.mod_lt _ hb

theorem digitChar_mem_hexLower (d : Nat) (hd : d < 16) :
    Nat.digitChar d ∈ hexLowerChars := by
  interval_cases d <;> decide

theorem natToHexChars_length_le (n k : Nat) (hn : n < 16 ^ k) (hk : 1 ≤ k) :
    (natToHexChars n).length ≤ k := by
  unfold natToHexChars
  by_cases h0 : n = 0
  · simp [h0]
    omega
  · rw [if_neg h0]
    simpa using natDigitsInBase_length_le 16 (by norm_num) n n k hn

theorem natToHexChars_mem (n : Nat) : ∀ c ∈ natToHexChars n, c ∈ hexLowerChars := by
  unfold natToHexChars
  by_cases h0 : n = 0
  · rw [if_pos h0]
    intro c hc
    simp at hc
    subst hc
    decide
  · rw [if_neg h0]
    intro c hc
    obtain ⟨d, hd, rfl⟩ := List.mem_map.mp hc
    exact digitChar_mem_hexLower d (natDigitsInBase_lt 16 (by norm_num) n n d hd)

theorem padStartChars_length (l : List Char) (n : Nat) (c : Char) (h : l.length ≤ n) :
    (padStartChars l n c).length = n := by
  simp [padStartChars]
  omega

theorem padStartChars_mem (l : List Char) (n : Nat) (c : Char) :
    ∀ x ∈ padStartChars l n c, x = c ∨ x ∈ l := by
  intro x hx
  rcases List.mem_append.mp hx with h1 | h2
  · exact Or.inl (List.eq_of_mem_replicate h1)
  · exact Or.inr h2

theorem byteHexChars_length (b : Nat) (hb : b < 256) : (byteHexChars b).length = 2 :=
  padStartChars_length _ _ _
    (natToHexChars_length_le b 2 (by omega) (by norm_num))

theorem byteHexChars_mem (b : Nat) : ∀ c ∈ byteHexChars b, c ∈ hexLowerChars := by
  intro c hc
  rcases padStartChars_mem _ _ _ c hc with rfl | h
  · decide
  · exact natToHexChars_mem b c h

theorem flatMap_byteHexChars_length (bs : List Nat) (h : ∀ b ∈ bs, b < 256) :
    (bs.flatMap byteHexChars).length = 2 * bs.length := by
  induction bs with
  | nil => rfl
  | cons b t ih =>
    have hb := h b (List.mem_cons_self b t)
    have ht := ih fun x hx => h x (List.mem_cons_of_mem b hx)
    simp only [List.flatMap_cons, List.length_append, List.length_cons,
      byteHexChars_length b hb, ht]
    ring

/-- Claim C10: `memoToHex` maps an absent memo and a zero numeric memo to the
empty string (making them indistinguishable in the emitted row); a nonzero
numeric memo (a `u64`, as every call site decodes memos with `IDL.Nat64`)
yields a 16-character zero-padded lowercase hex string; a byte-sequence memo
yields its per-byte two-digit lowercase hex encoding. -/
theorem c10_memoToHex_encoding :
    (memoToHex .absent = "" ∧ memoToHex (.num 0) = "")
    ∧ (∀ n : Nat, n ≠ 0 → n < 2 ^ 64 →
        (memoToHex (.num n)).length = 16
        ∧ ∀ c ∈ (memoToHex (.num n)).data, c ∈ hexLowerChars)
    ∧ (∀ bs : List Nat, (∀ b ∈ bs, b < 256) →
        (memoToHex (.bytes bs)).length = 2 * bs.length
        ∧ memoToHex (.bytes bs) = String.mk (bs.flatMap byteHexChars)
        ∧ ∀ c ∈ (memoToHex (.bytes bs)).data, c ∈ hexLowerChars) := by
  refine ⟨⟨rfl, rfl⟩, ?_, ?_⟩
  · intro n hn hlt
    have h16 : (natToHexChars n).length ≤ 16 := by
      refine natToHexChars_length_le n 16 ?_ (by norm_num)
      calc n < 2 ^ 64 := hlt
      _ = 16 ^ 16 := by norm_num
    constructor
    · simp only [memoToHex, if_neg hn]
      show (padStartChars (natToHexChars n) 16 '0').length = 16
      exact padStartChars_length _ _ _ h16
    · simp only [memoToHex, if_neg hn]
      intro c hc
      rcases padStartChars_mem _ _ _ c hc with rfl | h
      · decide
      · exact natToHexChars_mem n c h
  · intro bs hbs
    refine ⟨?_, rfl, ?_⟩
    · show (bs.flatMap byteHexChars).length = 2 * bs.length
      exact flatMap_byteHexChars_length bs hbs
    · intro c hc
      obtain ⟨b, hb, hcb⟩ := List.mem_flatMap.mp hc
      exact byteHexChars_mem b c hcb

/-- Claim C10 witness: `memoToHex` evaluated on an absent memo, a zero memo,
a nonzero `u64` memo, and a byte-sequence memo. -/
theorem c10_witness :
    (memoToHex .absent = "" ∧ memoToHex (.num 0) = "")
    ∧ ((81985529216486895 ≠ 0 ∧ 81985529216486895 < 2 ^ 64)
        ∧ (memoToHex (.num 81985529216486895)).length = 16)
    ∧ ((∀ b ∈ [0, 171, 255], b < 256)
        ∧ (memoToHex (.bytes [0, 171, 255])).length = 2 * ([0, 171, 255] : List Nat).length) :=
  ⟨c10_memoToHex_encoding.1,
   ⟨⟨by decide, by norm_num⟩,
    (c10_memoToHex_encoding.2.1 81985529216486895 (by decide) (by norm_num)).1⟩,
   ⟨by decide,
    (c10_memoToHex_encoding.2.2 [0, 171, 255] (by decide)).1⟩⟩

/- ==================== Claim C1 (scan window and segment coverage) ==================== -/

theorem buildSegmentsAux_nil (page startIndex fuel cursor idx : Nat)
    (h : cursor < startIndex) :
    buildSegmentsAux page startIndex fuel cursor idx = [] := by
  cases fuel with
  | zero => rfl
  | succ fuel =>
    rw [buildSegmentsAux, if_neg (by omega)]

theorem buildSegmentsAux_succ (page startIndex fuel cursor idx : Nat)
    (h : startIndex ≤ cursor) :
    buildSegmentsAux page startIndex (fuel + 1) cursor idx
      = (if cursor - (min page (cursor - startIndex + 1) - 1) = 0
         then [⟨cursor - (min page (cursor - startIndex + 1) - 1),
                min page (cursor - startIndex + 1), idx⟩]
         else ⟨cursor - (min page (cursor - startIndex + 1) - 1),
                min page (cursor - startIndex + 1), idx⟩
           :: buildSegmentsAux page startIndex fuel
                (cursor - (min page (cursor - startIndex + 1) - 1) - 1) (idx + 1)) := by
  simp only [buildSegmentsAux, if_pos h]

theorem buildSegmentsAux_spec (page startIndex : Nat) (hp : 1 ≤ page) :
    ∀ fuel cursor idx, startIndex ≤ cursor → cursor < startIndex + fuel →
      ((buildSegmentsAux page startIndex fuel cursor idx).reverse.flatMap segRange
          = List.range' startIndex (cursor + 1 - startIndex))
      ∧ (∀ seg ∈ buildSegmentsAux page startIndex fuel cursor idx,
          1 ≤ seg.length ∧ seg.length ≤ page ∧ startIndex ≤ seg.start
            ∧ seg.start + seg.length ≤ cursor + 1)
      ∧ (buildSegmentsAux page startIndex fuel cursor idx).Pairwise
          (fun a b => b.start + b.length ≤ a.start) := by
  intro fuel
  induction fuel with
  | zero =>
    intro cursor idx h1 h2
    omega
  | succ fuel ih =>
    intro cursor idx h1 h2
    rw [buildSegmentsAux_succ page startIndex fuel cursor idx h1]
    set L := min page (cursor - startIndex + 1) with hL
    set S := cursor - (L - 1) with hS
    have hl1 : 1 ≤ L := by omega
    have hlp : L ≤ page := by omega
    have hlc : L ≤ cursor - startIndex + 1 := by omega
    have hse : S + L = cursor + 1 := by omega
    have hss : startIndex ≤ S := by omega
    by_cases h0 : S = 0
    · rw [if_pos h0]
      have hsi : startIndex = 0 := by omega
      refine ⟨?_, ?_, ?_⟩
      · have hlen : L = cursor + 1 := by omega
        simp only [List.reverse_cons, List.reverse_nil, List.nil_append,
          List.flatMap_cons, List.flatMap_nil, List.append_nil, segRange]
        rw [h0, hsi, hlen]
        have hz : cursor + 1 - 0 = cursor + 1 := by omega
        rw [hz]
      · intro seg hseg
        simp only [List.mem_singleton] at hseg
        subst hseg
        exact ⟨hl1, hlp, hss, by show S + L ≤ cursor + 1; omega⟩
      · simp
    · rw [if_neg h0]
      by_cases hEq : S ≤ startIndex
      · have hstartEq : S = startIndex := le_antisymm hEq hss
        have htail : buildSegmentsAux page startIndex fuel (S - 1) (idx + 1) = [] :=
          buildSegmentsAux_nil page startIndex fuel (S - 1) (idx + 1) (by omega)
        rw [htail]
        refine ⟨?_, ?_, ?_⟩
        · have hlen : L = cursor + 1 - startIndex := by omega
          simp only [List.reverse_cons, List.reverse_nil, List.nil_append,
            List.flatMap_cons, List.flatMap_nil, List.append_nil, segRange]
          rw [hstartEq, hlen]
        · intro seg hseg
          simp only [List.mem_singleton] at hseg
          subst hseg
          exact ⟨hl1, hlp, hss, by show S + L ≤ cursor + 1; omega⟩
        · simp
      · push_neg at hEq
        have hc1 : startIndex ≤ S - 1 := by omega
        have hc2 : S - 1 < startIndex + fuel := by omega
        obtain ⟨htile, hbound, hpair⟩ := ih (S - 1) (idx + 1) hc1 hc2
        refine ⟨?_, ?_, ?_⟩
        · rw [List.reverse_cons, List.flatMap_append, htile]
          simp only [List.flatMap_cons, List.flatMap_nil, List.append_nil, segRange]
          have h5 : S - 1 + 1 - startIndex = S - startIndex := by omega
          rw [h5]
          have happ := List.range'_append startIndex (S - startIndex) L 1
          simp only [one_mul, List.range'_one] at happ
          rw [show startIndex + (S - startIndex) = S by omega] at happ
          rw [happ]
          congr 1
          omega
        · intro seg hseg
          rcases List.mem_cons.mp hseg with rfl | hmem
          · exact ⟨hl1, hlp, hss, by show S + L ≤ cursor + 1; omega⟩
          · obtain ⟨q1, q2, q3, q4⟩ := hbound seg hmem
            refine ⟨q1, q2, q3, ?_⟩
            have hq : seg.start + seg.length ≤ S - 1 + 1 := q4
            omega
        · rw [List.pairwise_cons]
          refine ⟨?_, hpair⟩
          intro seg hmem
          have hq : seg.start + seg.length ≤ S - 1 + 1 := (hbound seg hmem).2.2.2
          show seg.start + seg.length ≤ S
          omega

/-- Claim C1: for `totalLength ≥ 1`, `maxBlocks ≥ 1`, `pageSize ≥ 1`, the
scan window start equals `max(0, totalLength - 1 - maxBlocks)` (with
`endIndex = totalLength - 1`), every segment built by `buildSegments` has
length between `1` and `pageSize`, consecutive segments are descending and
disjoint (each later segment lies strictly below the previous one's start),
and the segment ranges, read from oldest to newest, tile exactly the interval
`[startIndex, endIndex]`. -/
theorem c1_scan_window_segments (totalLength maxBlocks page : Nat)
    (h1 : 1 ≤ totalLength) (h2 : 1 ≤ maxBlocks) (h3 : 1 ≤ page) :
    ((scanStartIndex (totalLength - 1) maxBlocks : Int)
        = max 0 ((totalLength : Int) - 1 - (maxBlocks : Int)))
    ∧ (∀ seg ∈ buildSegments (scanStartIndex (totalLength - 1) maxBlocks)
          (totalLength - 1) page,
        1 ≤ seg.length ∧ seg.length ≤ page)
    ∧ ((buildSegments (scanStartIndex (totalLength - 1) maxBlocks)
          (totalLength - 1) page).reverse.flatMap segRange
        = List.range' (scanStartIndex (totalLength - 1) maxBlocks)
            (totalLength - scanStartIndex (totalLength - 1) maxBlocks))
    ∧ (buildSegments (scanStartIndex (totalLength - 1) maxBlocks)
          (totalLength - 1) page).Pairwise
        (fun a b => b.start + b.length ≤ a.start) := by
  have hsidef : scanStartIndex (totalLength - 1) maxBlocks
      = if maxBlocks < totalLength - 1 then totalLength - 1 - maxBlocks else 0 := by
    rw [scanStartIndex]
  have hsile : scanStartIndex (totalLength - 1) maxBlocks ≤ totalLength - 1 := by
    rw [hsidef]
    split <;> omega
  obtain ⟨ht, hb, hpw⟩ := buildSegmentsAux_spec page
      (scanStartIndex (totalLength - 1) maxBlocks) h3 (totalLength - 1 + 1)
      (totalLength - 1) 0 hsile (by omega)
  refine ⟨?_, ?_, ?_, ?_⟩
  · rw [hsidef]
    split <;> (push_cast; omega)
  · intro seg hseg
    obtain ⟨q1, q2, _, _⟩ := hb seg hseg
    exact ⟨q1, q2⟩
  · rw [buildSegments, ht]
    congr 1
    omega
  · exact hpw

/-- Claim C1 witness: the scan window and segment properties evaluated at
`totalLength = 11`, `maxBlocks = 4`, `pageSize = 3`. -/
theorem c1_witness :
    (1 ≤ 11 ∧ 1 ≤ 4 ∧ 1 ≤ 3)
    ∧ (((scanStartIndex (11 - 1) 4 : Int) = max 0 ((11 : Int) - 1 - (4 : Int)))
      ∧ (∀ seg ∈ buildSegments (scanStartIndex (11 - 1) 4) (11 - 1) 3,
          1 ≤ seg.length ∧ seg.length ≤ 3)
      ∧ ((buildSegments (scanStartIndex (11 - 1) 4) (11 - 1) 3).reverse.flatMap segRange
          = List.range' (scanStartIndex (11 - 1) 4) (11 - scanStartIndex (11 - 1) 4))
      ∧ (buildSegments (scanStartIndex (11 - 1) 4) (11 - 1) 3).Pairwise
          (fun a b => b.start + b.length ≤ a.start)) :=
  ⟨by decide, c1_scan_window_segments 11 4 3 (by decide) (by decide) (by decide)⟩

/- ==================== Claim C2 (direction classifier totality) ==================== -/

theorem zipAll_eq_iff (x : List Nat) : ∀ y : List Nat,
    (((x.length == y.length) && (List.zip x y).all fun p => p.1 == p.2) = true) ↔ x = y := by
  induction x with
  | nil =>
    intro y
    cases y <;> simp
  | cons a t ih =>
    intro y
    cases y with
    | nil => simp
    | cons b u =>
      have hiu := ih u
      simp only [List.length_cons, List.zip_cons_cons, List.all_cons, Bool.and_eq_true,
        beq_iff_eq, List.cons.injEq] at hiu ⊢
      constructor
      · rintro ⟨hlen, hab, hall⟩
        exact ⟨hab, hiu.mp ⟨by omega, hall⟩⟩
      · rintro ⟨hab, ht⟩
        obtain ⟨hlen, hall⟩ := hiu.mpr ht
        exact ⟨by omega, hab, hall⟩

theorem eqAccount_iff_normalizedSub (o : String) (sa sb : Option (List Nat)) :
    eqAccount (some ⟨o, sa⟩) ⟨o, sb⟩ = true ↔ normalizeSub sa = normalizeSub sb := by
  simp only [eqAccount, bne_self_eq_false, Bool.false_eq_true, if_false]
  cases hsa : normalizeSub sa with
  | none =>
    cases hsb : normalizeSub sb with
    | none => simp
    | some y => simp
  | some x =>
    cases hsb : normalizeSub sb with
    | none => simp
    | some y => simpa using zipAll_eq_iff x y

/-- Claim C2: the direction chain of `handleIcrcBlock` assigns exactly one of
`self` / `inflow` / `outflow` / `null`, and assigns `self` exactly when both
the decoded from- and to-identities match the watched account under
`eqAccount`; the `api_scanner.ts` classifier does the same under
`matchesIcrcAccount` in either matching mode. -/
theorem c2_direction_self_iff :
    (∀ (source dest : Option Account) (wallet : Account),
      (classifyIcrcDirection source dest wallet = some .self
          ↔ eqAccount source wallet = true ∧ eqAccount dest wallet = true)
      ∧ (classifyIcrcDirection source dest wallet = none
          ∨ classifyIcrcDirection source dest wallet = some .self
          ∨ classifyIcrcDirection source dest wallet = some .inflow
          ∨ classifyIcrcDirection source dest wallet = some .outflow))
    ∧ (∀ (strict : Bool) (source dest : Option AccountJs) (walletOwner : String),
      (fromIcrcTransactionDirection strict source dest walletOwner = some .self
          ↔ matchesIcrcAccount strict source walletOwner none = true
            ∧ matchesIcrcAccount strict dest walletOwner none = true)
      ∧ (fromIcrcTransactionDirection strict source dest walletOwner = none
          ∨ fromIcrcTransactionDirection strict source dest walletOwner = some .self
          ∨ fromIcrcTransactionDirection strict source dest walletOwner = some .inflow
          ∨ fromIcrcTransactionDirection strict source dest walletOwner = some .outflow)) := by
  constructor
  · intro source dest wallet
    rcases source with - | f
    · rcases dest with - | t <;> simp [classifyIcrcDirection, eqAccount]
    · rcases dest with - | t
      · simp [classifyIcrcDirection, eqAccount]
      · cases h1 : eqAccount (some f) wallet <;> cases h2 : eqAccount (some t) wallet <;>
          simp [classifyIcrcDirection, h1, h2]
  · intro strict source dest walletOwner
    cases h1 : matchesIcrcAccount strict source walletOwner none <;>
      cases h2 : matchesIcrcAccount strict dest walletOwner none <;>
        simp [fromIcrcTransactionDirection, h1, h2]

/- ==================== Claim C3 (owner-only matching) ==================== -/

/-- Claim C3, counterexample: `scanner.ts`'s `eqAccount` — the matcher that
`handleIcrcBlock` uses for direction classification — has no strict-mode
switch and always compares normalized sub-identities: two accounts with the
same owner but differing sub-identities do not match, and a transfer between
them classifies as `null`, contradicting "sub-identity is ignored entirely
when strict-subaccount mode is disabled". -/
theorem c3_counterexample :
    eqAccount (some ⟨"aaaaa-aa", some [1]⟩) ⟨"aaaaa-aa", none⟩ = false
    ∧ classifyIcrcDirection (some ⟨"aaaaa-aa", some [1]⟩) (some ⟨"aaaaa-aa", some [1]⟩)
        ⟨"aaaaa-aa", none⟩ = none := by
  decide

/-- Claim C3, amended: owner-only matching when strict mode is disabled holds
for `api_scanner.ts`'s `matchesIcrcAccount` (a non-empty matching owner
suffices, with arbitrary sub-identities on both sides), and owner equality is
necessary in both modes; `scanner.ts`'s `eqAccount`, however, has no mode
switch and matches exactly when the owners are equal and the normalized
sub-identities are equal. -/
theorem c3_owner_matching :
    (∀ (a : AccountJs) (o : String) (walletSub : Option String),
        o ≠ "" → a.owner = some o →
        matchesIcrcAccount false (some a) o walletSub = true)
    ∧ (∀ (strict : Bool) (a : AccountJs) (walletOwner : String) (walletSub : Option String),
        matchesIcrcAccount strict (some a) walletOwner walletSub = true →
        a.owner = some walletOwner)
    ∧ (∀ (o : String) (sa sb : Option (List Nat)),
        eqAccount (some ⟨o, sa⟩) ⟨o, sb⟩ = true ↔ normalizeSub sa = normalizeSub sb) := by
  refine ⟨?_, ?_, eqAccount_iff_normalizedSub⟩
  · intro a o walletSub ho hao
    simp [matchesIcrcAccount, hao, ho]
  · intro strict a walletOwner walletSub hmatch
    cases hao : a.owner with
    | none => simp [matchesIcrcAccount, hao] at hmatch
    | some o =>
      by_cases ho : o = ""
      · simp [matchesIcrcAccount, hao, ho] at hmatch
      · by_cases how : o = walletOwner
        · rw [how]
        · simp [matchesIcrcAccount, hao, ho, how] at hmatch

/-- Claim C3 witness: owner-only matching and the two `eqAccount` directions
evaluated at concrete accounts. -/
theorem c3_witness :
    (("p" : String) ≠ ""
      ∧ matchesIcrcAccount false (some ⟨some "p", some "0abc"⟩) "p" (some "ff") = true)
    ∧ (matchesIcrcAccount true (some ⟨some "p", none⟩) "p" none = true
      ∧ (⟨some "p", none⟩ : AccountJs).owner = some "p")
    ∧ (eqAccount (some ⟨"p", some (List.replicate 32 0)⟩) ⟨"p", none⟩ = true
      ↔ normalizeSub (some (List.replicate 32 0)) = normalizeSub none) :=
  ⟨⟨by decide, c3_owner_matching.1 ⟨some "p", some "0abc"⟩ "p" (some "ff") (by decide) rfl⟩,
   ⟨by decide, c3_owner_matching.2.1 true ⟨some "p", none⟩ "p" none (by decide)⟩,
   c3_owner_matching.2.2 "p" (some (List.replicate 32 0)) none⟩

/- ==================== Claim C4 (Mint/Burn handling) ==================== -/

/-- Claim C4, counterexample: `scanner.ts`'s `handleBlock` emits no record
for a Mint or Burn block (only `Transfer` passes the `opKey` check), even
when the block is inside the time window — contradicting "a Mint or Burn is
classified and emitted whenever encountered". -/
theorem c4_counterexample :
    handleBlock (fun _ => "") "ab" 100 200 "ICP" 8 3
        ⟨some 150000000, some (.mint [171] 5), .absent⟩ = none
    ∧ handleBlock (fun _ => "") "ab" 100 200 "ICP" 8 4
        ⟨some 150000000, some (.burn [171] 5), .absent⟩ = none
    ∧ (100 ≤ 150 ∧ 150 ≤ 200) := by
  decide

/-- Claim C4, amended: `api_scanner.ts`'s `fromIcpTransaction` classifies
Mint/Burn unconditionally as `mint`/`burn` without comparing the from/to
identities to the watched account; `scanner.ts`'s `handleBlock`, by contrast,
skips every non-`Transfer` operation (Mint and Burn blocks produce no row). -/
theorem c4_mint_burn_policy :
    (∀ (transferType fromAcc toAcc wallet : String),
        toLowerStr transferType = "mint" →
        fromIcpTransactionDirection transferType fromAcc toAcc wallet = some .mint)
    ∧ (∀ (transferType fromAcc toAcc wallet : String),
        toLowerStr transferType = "burn" →
        fromIcpTransactionDirection transferType fromAcc toAcc wallet = some .burn)
    ∧ (∀ (toIso : Nat → String) (targetHex : String) (fromMs toMs : Nat)
        (symbol : String) (decimals blockIndex : Nat) (block : IcpBlock),
        (∀ source dest amount, block.operation ≠ some (.transfer source dest amount)) →
        handleBlock toIso targetHex fromMs toMs symbol decimals blockIndex block = none) := by
  refine ⟨?_, ?_, ?_⟩
  · intro transferType fromAcc toAcc wallet h
    simp [fromIcpTransactionDirection, h]
  · intro transferType fromAcc toAcc wallet h
    simp [fromIcpTransactionDirection, h]
  · intro toIso targetHex fromMs toMs symbol decimals blockIndex block hop
    rcases hbo : block.operation with - | op
    · simp only [handleBlock, hbo]
      split <;> rfl
    · rcases op with ⟨s, d, a⟩ | ⟨d, a⟩ | ⟨s, a⟩ | ⟨s⟩
      · exact absurd hbo (hop s d a)
      · simp only [handleBlock, hbo]
        split <;> rfl
      · simp only [handleBlock, hbo]
        split <;> rfl
      · simp only [handleBlock, hbo]
        split <;> rfl

/-- Claim C4 witness: the Mint/Burn policies evaluated at concrete inputs. -/
theorem c4_witness :
    fromIcpTransactionDirection "Mint" "aa" "bb" "cc" = some .mint
    ∧ fromIcpTransactionDirection "BURN" "aa" "bb" "cc" = some .burn
    ∧ handleBlock (fun _ => "") "ab" 0 1000 "ICP" 8 1
        ⟨some 0, some (.approve [1]), .absent⟩ = none :=
  ⟨c4_mint_burn_policy.1 "Mint" "aa" "bb" "cc" (by decide),
   c4_mint_burn_policy.2.1 "BURN" "aa" "bb" "cc" (by decide),
   c4_mint_burn_policy.2.2 (fun _ => "") "ab" 0 1000 "ICP" 8 1
     ⟨some 0, some (.approve [1]), .absent⟩ (fun s d a h => by simp at h)⟩

/- ==================== Claim C7 (time-window filtering) ==================== -/

/-- Claim C7, counterexample: in `handleBlock` the window check is
`if (ts && (ts < FROM_MS || ts > TO_MS)) return`, so a block whose timestamp
truncates to `0` milliseconds is falsy, bypasses the filter, and is emitted
when its identities match — even though `0` lies outside the configured
window `[100, 200]`. -/
theorem c7_counterexample :
    (handleBlock (fun _ => "") "ab" 100 200 "ICP" 8 3
        ⟨some 0, some (.transfer [171] [171] 5), .absent⟩).isSome = true
    ∧ n64ToMillis (some 0) = some 0
    ∧ (0 : Nat) < 100 := by
  decide

/-- Claim C7, amended: a fetched block whose decoded millisecond timestamp is
nonzero and outside the inclusive window is dropped without a row by
`handleBlock`, regardless of identity matching; `handleIcrcBlock` drops every
out-of-window block (including timestamp `0`); but a block whose timestamp
decodes to `0` ms (or fails to decode) bypasses `handleBlock`'s filter. -/
theorem c7_window_filter :
    (∀ (toIso : Nat → String) (targetHex : String) (fromMs toMs : Nat)
        (symbol : String) (decimals blockIndex : Nat) (block : IcpBlock) (t : Nat),
        n64ToMillis block.timestamp = some t → t ≠ 0 → (t < fromMs ∨ toMs < t) →
        handleBlock toIso targetHex fromMs toMs symbol decimals blockIndex block = none)
    ∧ (∀ (decode : List Nat → Option String) (toIso : Nat → String) (wallet : Account)
        (fromTs toTs : Nat) (symbol : String) (decimals id : Nat) (block : Value),
        (extractNat (extractValue (some block) "ts") < fromTs
          ∨ toTs < extractNat (extractValue (some block) "ts")) →
        handleIcrcBlock decode toIso wallet fromTs toTs symbol decimals id block = none) := by
  constructor
  · intro toIso targetHex fromMs toMs symbol decimals blockIndex block t h1 h2 h3
    simp only [handleBlock, h1, Option.getD_some]
    rw [if_pos ⟨h2, h3⟩]
  · intro decode toIso wallet fromTs toTs symbol decimals id block h
    simp only [handleIcrcBlock]
    rw [if_pos h]

/-- Claim C7 witness: the window filter evaluated on concrete out-of-window
blocks (nonzero-millisecond ICP block and a timestamp-less ICRC block). -/
theorem c7_witness :
    (n64ToMillis (some 50000000) = some 50 ∧ 50 ≠ 0 ∧ (50 < 100 ∨ 200 < 50)
      ∧ handleBlock (fun _ => "") "ab" 100 200 "ICP" 8 3
          ⟨some 50000000, some (.transfer [171] [171] 5), .absent⟩ = none)
    ∧ ((extractNat (extractValue (some (.natV 7)) "ts") < 10
          ∨ 20 < extractNat (extractValue (some (.natV 7)) "ts"))
      ∧ handleIcrcBlock (fun _ => none) (fun _ => "") ⟨"p", none⟩ 10 20 "T" 8 1
          (.natV 7) = none) :=
  ⟨⟨by decide, by decide, Or.inl (by decide),
    c7_window_filter.1 (fun _ => "") "ab" 100 200 "ICP" 8 3
      ⟨some 50000000, some (.transfer [171] [171] 5), .absent⟩ 50
      (by decide) (by decide) (Or.inl (by decide))⟩,
   ⟨Or.inl (by decide),
    c7_window_filter.2 (fun _ => none) (fun _ => "") ⟨"p", none⟩ 10 20 "T" 8 1
      (.natV 7) (Or.inl (by decide))⟩⟩

/- ==================== Claim C9 (segment fetch failure policy) ==================== -/

/-- Claim C9, counterexample: in the sequential `scanIcpLedger` variant the
`catch` does `break`, so when the first (most recent) segment's fetch fails,
the remaining segment — whose fetch succeeds and whose block maps to a row —
is never scanned and its row is never emitted; the parallel variant emits it. -/
theorem c9_counterexample :
    scanSegmentsSequential
        (fun s => if s.idx = 0 then (Except.error "network") else Except.ok [1])
        (fun _ => some ⟨"", "ICP", .inflow, ([1], []), "", "", 5, ""⟩)
        [⟨10, 5, 0⟩, ⟨5, 5, 1⟩] = []
    ∧ (fun s : Segment => if s.idx = 0 then (Except.error "network")
          else Except.ok ([1] : List Nat)) ⟨5, 5, 1⟩ = Except.ok [1]
    ∧ (fun _ : Nat => some (⟨"", "ICP", .inflow, ([1], []), "", "", 5, ""⟩ : CsvRow)) 1
        = some ⟨"", "ICP", .inflow, ([1], []), "", "", 5, ""⟩
    ∧ scanSegmentsParallel
        (fun s => if s.idx = 0 then (Except.error "network") else Except.ok [1])
        (fun _ => some ⟨"", "ICP", .inflow, ([1], []), "", "", 5, ""⟩)
        [⟨10, 5, 0⟩, ⟨5, 5, 1⟩] = [⟨"", "ICP", .inflow, ([1], []), "", "", 5, ""⟩] :=
  ⟨rfl, rfl, rfl, rfl⟩

/-- Claim C9, amended: in the parallel scanners a failed segment fetch only
removes that one segment's contribution — every other segment's rows are
still emitted, in order; in the sequential variant a failed fetch ends the
loop, so the failing segment and every remaining segment contribute nothing. -/
theorem c9_segment_failure_policy {B E : Type} (fetch : Segment → Except E (List B))
    (handle : B → Option CsvRow) (pre post : List Segment) (sBad : Segment) (e : E)
    (hfail : fetch sBad = Except.error e) :
    (scanSegmentsParallel fetch handle (pre ++ sBad :: post)
        = scanSegmentsParallel fetch handle pre ++ scanSegmentsParallel fetch handle post)
    ∧ (∀ rest, scanSegmentsSequential fetch handle (sBad :: rest) = []) := by
  constructor
  · unfold scanSegmentsParallel
    rw [List.flatMap_append, List.flatMap_cons, hfail]
    simp
  · intro rest
    unfold scanSegmentsSequential
    rw [hfail]

/-- Claim C9 witness: the failure policy evaluated at a concrete three-segment
scan whose middle segment fails. -/
theorem c9_witness :
    ((fun s : Segment => if s.idx = 1 then (Except.error "network")
        else Except.ok ([] : List Nat)) ⟨8, 1, 1⟩ = Except.error "network")
    ∧ (scanSegmentsParallel
          (fun s : Segment => if s.idx = 1 then (Except.error "network")
            else Except.ok ([] : List Nat))
          (fun _ => none) ([⟨10, 2, 0⟩] ++ ⟨8, 1, 1⟩ :: [⟨5, 3, 2⟩])
        = scanSegmentsParallel
            (fun s : Segment => if s.idx = 1 then (Except.error "network")
              else Except.ok ([] : List Nat))
            (fun _ => none) [⟨10, 2, 0⟩]
          ++ scanSegmentsParallel
              (fun s : Segment => if s.idx = 1 then (Except.error "network")
                else Except.ok ([] : List Nat))
              (fun _ => none) [⟨5, 3, 2⟩])
    ∧ (∀ rest, scanSegmentsSequential
          (fun s : Segment => if s.idx = 1 then (Except.error "network")
            else Except.ok ([] : List Nat))
          (fun _ => none) (⟨8, 1, 1⟩ :: rest) = []) :=
  ⟨rfl,
   (c9_segment_failure_policy
      (fun s : Segment => if s.idx = 1 then (Except.error "network")
        else Except.ok ([] : List Nat))
      (fun _ => none) [⟨10, 2, 0⟩] [⟨5, 3, 2⟩] ⟨8, 1, 1⟩ "network" rfl).1,
   (c9_segment_failure_policy
      (fun s : Segment => if s.idx = 1 then (Except.error "network")
        else Except.ok ([] : List Nat))
      (fun _ => none) [⟨10, 2, 0⟩] [⟨5, 3, 2⟩] ⟨8, 1, 1⟩ "network" rfl).2⟩
